import Mathlib

/-!
Verification of the clause-generation layer of a trait-resolution engine
(chalk-solve/src/clauses.rs).

The data model (goals, types, clauses, binders) lives in the external
crates chalk-ir and chalk-rust-ir; only clauses.rs is part of the source
under verification, so the data model below is a shallow embedding of the
shapes that clauses.rs manipulates, taking the specification's data-model
section as the authority for the parts the source file only mentions.
Machine identifiers are embedded as natural numbers.  Vectors are embedded
as lists; the hash sets used by the environment-closure loop are embedded
as deduplicated lists over the clause type, with membership as the set
relation.
-/

/-- Identifier of a trait declaration (opaque id, embedded as a natural). -/
abbrev TraitId := Nat

/-- Identifier of a struct declaration. -/
abbrev StructId := Nat

/-- Identifier of an associated-type declaration. -/
abbrev TypeId := Nat

/-- An interned name, used by unselected projections. -/
abbrev Identifier := Nat

/-- Identifier of a declared entity: associated type, trait, or struct. -/
inductive TypeKindId where
  | typeId (id : TypeId)
  | traitId (id : TraitId)
  | structId (id : StructId)
deriving DecidableEq

/-- Head name of an applied type: a declared entity, a placeholder (rigid
type variable), or an associated type.  Named TypeName in the source; that
name is already taken in this Lean environment. -/
inductive TyName where
  | typeKindId (id : TypeKindId)
  | placeholder (idx : Nat)
  | associatedType (id : TypeId)
deriving DecidableEq

/-- Types: applied type constructors, projections, unselected projections,
universally quantified types, and variables with no resolvable shape.
The fields of the source's ApplicationTy, ProjectionTy,
UnselectedProjectionTy and QuantifiedTy payload structs are inlined into
the constructors; type arguments are embedded as lists of types. -/
inductive Ty where
  | apply (name : TyName) (parameters : List Ty)
  | projection (associated_ty_id : TypeId) (parameters : List Ty)
  | unselectedProjection (type_name : Identifier) (parameters : List Ty)
  | forAllTy (num_binders : Nat) (ty : Ty)
  | boundVar (depth : Nat)
  | inferenceVar (index : Nat)

mutual

/-- Structural decidable equality for types (the derive handler does not
support this nested inductive). -/
def Ty.decEq : (a b : Ty) → Decidable (a = b)
  | .apply n ps, .apply n' ps' =>
    match instDecidableEqTyName n n', Ty.decEqList ps ps' with
    | .isTrue h1, .isTrue h2 => .isTrue (by rw [h1, h2])
    | .isFalse h1, _ => .isFalse (fun h => h1 (by injection h))
    | .isTrue _, .isFalse h2 => .isFalse (fun h => h2 (by injection h))
  | .apply _ _, .projection _ _ => .isFalse (fun h => Ty.noConfusion h)
  | .apply _ _, .unselectedProjection _ _ => .isFalse (fun h => Ty.noConfusion h)
  | .apply _ _, .forAllTy _ _ => .isFalse (fun h => Ty.noConfusion h)
  | .apply _ _, .boundVar _ => .isFalse (fun h => Ty.noConfusion h)
  | .apply _ _, .inferenceVar _ => .isFalse (fun h => Ty.noConfusion h)
  | .projection _ _, .apply _ _ => .isFalse (fun h => Ty.noConfusion h)
  | .projection i ps, .projection i' ps' =>
    match Nat.decEq i i', Ty.decEqList ps ps' with
    | .isTrue h1, .isTrue h2 => .isTrue (by rw [h1, h2])
    | .isFalse h1, _ => .isFalse (fun h => h1 (by injection h))
    | .isTrue _, .isFalse h2 => .isFalse (fun h => h2 (by injection h))
  | .projection _ _, .unselectedProjection _ _ => .isFalse (fun h => Ty.noConfusion h)
  | .projection _ _, .forAllTy _ _ => .isFalse (fun h => Ty.noConfusion h)
  | .projection _ _, .boundVar _ => .isFalse (fun h => Ty.noConfusion h)
  | .projection _ _, .inferenceVar _ => .isFalse (fun h => Ty.noConfusion h)
  | .unselectedProjection _ _, .apply _ _ => .isFalse (fun h => Ty.noConfusion h)
  | .unselectedProjection _ _, .projection _ _ => .isFalse (fun h => Ty.noConfusion h)
  | .unselectedProjection n ps, .unselectedProjection n' ps' =>
    match Nat.decEq n n', Ty.decEqList ps ps' with
    | .isTrue h1, .isTrue h2 => .isTrue (by rw [h1, h2])
    | .isFalse h1, _ => .isFalse (fun h => h1 (by injection h))
    | .isTrue _, .isFalse h2 => .isFalse (fun h => h2 (by injection h))
  | .unselectedProjection _ _, .forAllTy _ _ => .isFalse (fun h => Ty.noConfusion h)
  | .unselectedProjection _ _, .boundVar _ => .isFalse (fun h => Ty.noConfusion h)
  | .unselectedProjection _ _, .inferenceVar _ => .isFalse (fun h => Ty.noConfusion h)
  | .forAllTy _ _, .apply _ _ => .isFalse (fun h => Ty.noConfusion h)
  | .forAllTy _ _, .projection _ _ => .isFalse (fun h => Ty.noConfusion h)
  | .forAllTy _ _, .unselectedProjection _ _ => .isFalse (fun h => Ty.noConfusion h)
  | .forAllTy k t, .forAllTy k' t' =>
    match Nat.decEq k k', Ty.decEq t t' with
    | .isTrue h1, .isTrue h2 => .isTrue (by rw [h1, h2])
    | .isFalse h1, _ => .isFalse (fun h => h1 (by injection h))
    | .isTrue _, .isFalse h2 => .isFalse (fun h => h2 (by injection h))
  | .forAllTy _ _, .boundVar _ => .isFalse (fun h => Ty.noConfusion h)
  | .forAllTy _ _, .inferenceVar _ => .isFalse (fun h => Ty.noConfusion h)
  | .boundVar _, .apply _ _ => .isFalse (fun h => Ty.noConfusion h)
  | .boundVar _, .projection _ _ => .isFalse (fun h => Ty.noConfusion h)
  | .boundVar _, .unselectedProjection _ _ => .isFalse (fun h => Ty.noConfusion h)
  | .boundVar _, .forAllTy _ _ => .isFalse (fun h => Ty.noConfusion h)
  | .boundVar i, .boundVar i' =>
    match Nat.decEq i i' with
    | .isTrue h1 => .isTrue (by rw [h1])
    | .isFalse h1 => .isFalse (fun h => h1 (by injection h))
  | .boundVar _, .inferenceVar _ => .isFalse (fun h => Ty.noConfusion h)
  | .inferenceVar _, .apply _ _ => .isFalse (fun h => Ty.noConfusion h)
  | .inferenceVar _, .projection _ _ => .isFalse (fun h => Ty.noConfusion h)
  | .inferenceVar _, .unselectedProjection _ _ => .isFalse (fun h => Ty.noConfusion h)
  | .inferenceVar _, .forAllTy _ _ => .isFalse (fun h => Ty.noConfusion h)
  | .inferenceVar _, .boundVar _ => .isFalse (fun h => Ty.noConfusion h)
  | .inferenceVar i, .inferenceVar i' =>
    match Nat.decEq i i' with
    | .isTrue h1 => .isTrue (by rw [h1])
    | .isFalse h1 => .isFalse (fun h => h1 (by injection h))

/-- Structural decidable equality for lists of types. -/
def Ty.decEqList : (a b : List Ty) → Decidable (a = b)
  | [], [] => .isTrue rfl
  | [], _ :: _ => .isFalse (fun h => List.noConfusion h)
  | _ :: _, [] => .isFalse (fun h => List.noConfusion h)
  | t :: ts, u :: us =>
    match Ty.decEq t u, Ty.decEqList ts us with
    | .isTrue h1, .isTrue h2 => .isTrue (by rw [h1, h2])
    | .isFalse h1, _ => .isFalse (fun h => h1 (by injection h))
    | .isTrue _, .isFalse h2 => .isFalse (fun h => h2 (by injection h))

end

instance : DecidableEq Ty := Ty.decEq

/-- An applied type constructor: a head name and its type arguments.  Kept
as a separate record because struct declarations carry their self type in
this form. -/
structure ApplicationTy where
  name : TyName
  parameters : List Ty
deriving DecidableEq

/-- View of an applied type record as a type (the source's Ty::Apply
wrapping of an ApplicationTy value). -/
def Ty.ofApplication (a : ApplicationTy) : Ty :=
  Ty.apply a.name a.parameters

/-- A trait reference: a trait applied to its parameters (Self first). -/
structure TraitRef where
  trait_id : TraitId
  parameters : List Ty
deriving DecidableEq

/-- An associated-type projection on a known trait reference. -/
structure ProjectionTy where
  associated_ty_id : TypeId
  parameters : List Ty
deriving DecidableEq

/-- Equality of a projection with a type. -/
structure ProjectionEq where
  projection : ProjectionTy
  ty : Ty
deriving DecidableEq

/-- Normalization of a projection to a type. -/
structure Normalize where
  projection : ProjectionTy
  ty : Ty
deriving DecidableEq

/-- Normalization whose trait has not been selected yet.  Only the subject
type is consulted by this layer. -/
structure UnselectedNormalize where
  ty : Ty
deriving DecidableEq

/-- Where-clauses that may appear as hypotheses or goal heads. -/
inductive WhereClause where
  | implemented (trait_ref : TraitRef)
  | projectionEq (projection_predicate : ProjectionEq)
deriving DecidableEq

/-- Well-formedness subjects: a trait reference or a type. -/
inductive WellFormedGoal where
  | trait (trait_predicate : TraitRef)
  | ty (t : Ty)
deriving DecidableEq

/-- From-environment subjects: a trait reference or a type. -/
inductive FromEnv where
  | trait (trait_predicate : TraitRef)
  | ty (t : Ty)
deriving DecidableEq

/-- Domain goals: the propositions dispatched on by the clause collector.
One constructor per variant matched in the source. -/
inductive DomainGoal where
  | holds (wc : WhereClause)
  | wellFormed (wf : WellFormedGoal)
  | fromEnv (fe : FromEnv)
  | normalize (n : Normalize)
  | unselectedNormalize (n : UnselectedNormalize)
  | isLocal (ty : Ty)
  | isUpstream (ty : Ty)
  | isFullyVisible (ty : Ty)
  | downstreamType (ty : Ty)
  | inScope (type_kind_id : TypeKindId)
  | localImplAllowed (trait_ref : TraitRef)
  | compatible
deriving DecidableEq

/-- A Horn implication: one consequence and an ordered list of conditions.
The source stores conditions as general goals, but every clause built by
this layer only ever casts domain goals (trait references) into that
position, so conditions are embedded as domain goals. -/
structure ProgramClauseImplication where
  consequence : DomainGoal
  conditions : List DomainGoal
deriving DecidableEq

/-- Kind of a generic parameter bound by a binder list. -/
inductive ParameterKind where
  | ty
  | lifetime
deriving DecidableEq

/-- A value quantified over a list of generic parameters. -/
structure Binders (α : Type) where
  binders : List ParameterKind
  value : α
deriving DecidableEq

/-- Map over the contents of a binder, keeping the parameter list (the
source's map_ref). -/
def Binders.map_ref {α β : Type} (b : Binders α) (op : α → β) : Binders β :=
  Binders.mk b.binders (op b.value)

/-- A program clause: an implication, possibly universally quantified. -/
inductive ProgramClause where
  | implies (implication : ProgramClauseImplication)
  | forAllClause (binders : Binders ProgramClauseImplication)
deriving DecidableEq

/-- Modelled from the spec: the cast of a quantified implication into a
program clause (provided by the external chalk-ir cast machinery, not part
of the source file) wraps it in the universal quantifier, producing the
clause "quantified over the struct's own generic parameters". -/
def Binders.castToProgramClause (b : Binders ProgramClauseImplication) : ProgramClause :=
  ProgramClause.forAllClause b

/-- Consequence (head) of a program clause, looking under the binders. -/
def ProgramClause.consequence : ProgramClause → DomainGoal
  | .implies implication => implication.consequence
  | .forAllClause b => b.value.consequence

/-- Conditions of a program clause, looking under the binders. -/
def ProgramClause.conditions : ProgramClause → List DomainGoal
  | .implies implication => implication.conditions
  | .forAllClause b => b.value.conditions

/-- Trait flags; only the auto flag is consulted by this layer. -/
structure TraitFlags where
  auto : Bool
deriving DecidableEq

/-- Contents of a trait declaration under its binders.  The source also
carries where-clauses and associated-type ids, which this layer never
reads. -/
structure TraitDatumBound where
  trait_ref : TraitRef
  flags : TraitFlags
deriving DecidableEq

/-- A trait declaration: binders wrapping its contents. -/
structure TraitDatum where
  binders : Binders TraitDatumBound
deriving DecidableEq

/-- Contents of a struct declaration under its binders: the self type
(the struct applied to its own declared generic parameters) and the
declared field types, in declaration order. -/
structure StructDatumBound where
  self_ty : ApplicationTy
  fields : List Ty
deriving DecidableEq

/-- A struct declaration: binders wrapping its contents. -/
structure StructDatum where
  binders : Binders StructDatumBound
deriving DecidableEq

/-- The local hypothesis environment: an ordered list of clauses. -/
structure Environment where
  clauses : List ProgramClause

/-- Modelled from the spec: the Declaration Store.  The source consults it
through impl_provided_for and through the per-entity datum lookups; each
datum's own clause-producing routine (to_program_clauses, defined in the
program_clauses module, which is not part of the source file) is abstracted
as a fixed clause list per entity id, as the spec requires the store's
clause contribution per entity to be fixed and deterministic. -/
structure RustIrDatabase where
  impl_provided_for : TraitId → StructId → Bool
  trait_datum_clauses : TraitId → List ProgramClause
  associated_ty_data_clauses : TypeId → List ProgramClause
  struct_datum_clauses : StructId → List ProgramClause

/-- Head shape of a type, used by the structural could-match check. -/
inductive TyHead where
  | applyKind (id : TypeKindId)
  | applyPlaceholder (idx : Nat)
  | applyAssociated (id : TypeId)
  | projectionHead (id : TypeId)
  | unselectedHead (name : Identifier)
  | forAllHead
  | boundVarHead
  | inferenceVarHead
deriving DecidableEq

/-- Head identity of a type term. -/
def Ty.head_id : Ty → TyHead
  | .apply (.typeKindId id) _ => TyHead.applyKind id
  | .apply (.placeholder idx) _ => TyHead.applyPlaceholder idx
  | .apply (.associatedType id) _ => TyHead.applyAssociated id
  | .projection id _ => TyHead.projectionHead id
  | .unselectedProjection name _ => TyHead.unselectedHead name
  | .forAllTy _ _ => TyHead.forAllHead
  | .boundVar _ => TyHead.boundVarHead
  | .inferenceVar _ => TyHead.inferenceVarHead

/-- Number of arguments the head of a type term is applied to. -/
def Ty.head_arity : Ty → Nat
  | .apply _ parameters => parameters.length
  | .projection _ parameters => parameters.length
  | .unselectedProjection _ parameters => parameters.length
  | .forAllTy _ _ => 0
  | .boundVar _ => 0
  | .inferenceVar _ => 0

/-- Head identity of a domain goal: its variant together with the named
entity (trait id, associated-type id, or subject-type head). -/
inductive GoalHead where
  | implementedHead (id : TraitId)
  | projectionEqHead (id : TypeId)
  | wellFormedTraitHead (id : TraitId)
  | wellFormedTyHead (h : TyHead)
  | fromEnvTraitHead (id : TraitId)
  | fromEnvTyHead (h : TyHead)
  | normalizeHead (id : TypeId)
  | unselectedNormalizeHead (h : TyHead)
  | isLocalHead (h : TyHead)
  | isUpstreamHead (h : TyHead)
  | isFullyVisibleHead (h : TyHead)
  | downstreamTypeHead (h : TyHead)
  | inScopeHead (id : TypeKindId)
  | localImplAllowedHead (id : TraitId)
  | compatibleHead
deriving DecidableEq

/-- Head identity of a domain goal. -/
def DomainGoal.head_id : DomainGoal → GoalHead
  | .holds (.implemented trait_ref) => GoalHead.implementedHead trait_ref.trait_id
  | .holds (.projectionEq p) => GoalHead.projectionEqHead p.projection.associated_ty_id
  | .wellFormed (.trait trait_predicate) => GoalHead.wellFormedTraitHead trait_predicate.trait_id
  | .wellFormed (.ty t) => GoalHead.wellFormedTyHead t.head_id
  | .fromEnv (.trait trait_predicate) => GoalHead.fromEnvTraitHead trait_predicate.trait_id
  | .fromEnv (.ty t) => GoalHead.fromEnvTyHead t.head_id
  | .normalize n => GoalHead.normalizeHead n.projection.associated_ty_id
  | .unselectedNormalize n => GoalHead.unselectedNormalizeHead n.ty.head_id
  | .isLocal ty => GoalHead.isLocalHead ty.head_id
  | .isUpstream ty => GoalHead.isUpstreamHead ty.head_id
  | .isFullyVisible ty => GoalHead.isFullyVisibleHead ty.head_id
  | .downstreamType ty => GoalHead.downstreamTypeHead ty.head_id
  | .inScope type_kind_id => GoalHead.inScopeHead type_kind_id
  | .localImplAllowed trait_ref => GoalHead.localImplAllowedHead trait_ref.trait_id
  | .compatible => GoalHead.compatibleHead

/-- Arity of a domain goal: the length of the argument list attached to
its head entity. -/
def DomainGoal.head_arity : DomainGoal → Nat
  | .holds (.implemented trait_ref) => trait_ref.parameters.length
  | .holds (.projectionEq p) => p.projection.parameters.length
  | .wellFormed (.trait trait_predicate) => trait_predicate.parameters.length
  | .wellFormed (.ty t) => t.head_arity
  | .fromEnv (.trait trait_predicate) => trait_predicate.parameters.length
  | .fromEnv (.ty t) => t.head_arity
  | .normalize n => n.projection.parameters.length
  | .unselectedNormalize n => n.ty.head_arity
  | .isLocal ty => ty.head_arity
  | .isUpstream ty => ty.head_arity
  | .isFullyVisible ty => ty.head_arity
  | .downstreamType ty => ty.head_arity
  | .inScope _ => 0
  | .localImplAllowed trait_ref => trait_ref.parameters.length
  | .compatible => 0

/-- Modelled from the spec: the could-match predicate (provided by the
external chalk-ir could_match module, not part of the source file).  A
clause could match a goal exactly when its consequence's head identity and
arity agree with the goal's head identity and arity; argument values are
not compared. -/
def could_match (clause : ProgramClause) (goal : DomainGoal) : Bool :=
  decide (clause.consequence.head_id = goal.head_id) &&
    decide (clause.consequence.head_arity = goal.head_arity)

/-- Default clause synthesis for an auto trait and a struct, from
clauses.rs.  The source asserts that the trait is an auto trait with
exactly one binder and then, unless an explicit (positive or negative)
impl is provided for the pair, pushes one clause quantified over the
struct's binders: the struct's self type implements the trait provided
every field type implements the trait.  The two source assertions are
preconditions and appear as hypotheses of the theorems below. -/
def push_auto_trait_impls (auto_trait_id : TraitId) (auto_trait : TraitDatum)
    (struct_id : StructId) (struct_datum : StructDatum)
    (program : RustIrDatabase) (vec : List ProgramClause) : List ProgramClause :=
  if program.impl_provided_for auto_trait_id struct_id then vec
  else
    vec ++ [Binders.castToProgramClause
      (struct_datum.binders.map_ref (fun struct_contents =>
        ProgramClauseImplication.mk
          (DomainGoal.holds (WhereClause.implemented
            (TraitRef.mk auto_trait.binders.value.trait_ref.trait_id
              [Ty.ofApplication struct_datum.binders.value.self_ty])))
          (struct_contents.fields.map (fun field_ty =>
            DomainGoal.holds (WhereClause.implemented
              (TraitRef.mk auto_trait_id [field_ty]))))))]

/-- Clause lookup for a declared entity id, from clauses.rs. -/
def match_type_kind (db : RustIrDatabase) (type_kind_id : TypeKindId)
    (clauses : List ProgramClause) : List ProgramClause :=
  match type_kind_id with
  | .typeId type_id => clauses ++ db.associated_ty_data_clauses type_id
  | .traitId trait_id => clauses ++ db.trait_datum_clauses trait_id
  | .structId struct_id => clauses ++ db.struct_datum_clauses struct_id

/-- Type-shape dispatch, from clauses.rs: fetch the clauses of the entity
a type is shaped like; a placeholder yields the one unconditional clause
whose consequence is the goal itself; unselected projections and variables
yield nothing; quantified types recurse into their inner type. -/
def match_ty (db : RustIrDatabase) (goal : DomainGoal) (ty : Ty)
    (clauses : List ProgramClause) : List ProgramClause :=
  match ty with
  | .apply name _ =>
    match name with
    | .typeKindId type_kind_id => match_type_kind db type_kind_id clauses
    | .placeholder _ =>
      clauses ++ [ProgramClause.implies (ProgramClauseImplication.mk goal [])]
    | .associatedType type_id => clauses ++ db.associated_ty_data_clauses type_id
  | .projection associated_ty_id _ => clauses ++ db.associated_ty_data_clauses associated_ty_id
  | .unselectedProjection _ _ => clauses
  | .forAllTy _ quantified_ty => match_ty db goal quantified_ty clauses
  | .boundVar _ => clauses
  | .inferenceVar _ => clauses

/-- Candidate collection by goal shape, from clauses.rs: the contents of
the local candidate vector before the could-match filter is applied. -/
def collect_candidate_clauses (db : RustIrDatabase) (goal : DomainGoal) : List ProgramClause :=
  match goal with
  | .holds (.implemented trait_ref) => db.trait_datum_clauses trait_ref.trait_id
  | .holds (.projectionEq projection_predicate) =>
    db.associated_ty_data_clauses projection_predicate.projection.associated_ty_id
  | .wellFormed (.trait trait_predicate) => db.trait_datum_clauses trait_predicate.trait_id
  | .wellFormed (.ty ty) => match_ty db goal ty []
  | .fromEnv _ => []
  | .normalize projection_predicate =>
    db.associated_ty_data_clauses projection_predicate.projection.associated_ty_id
  | .unselectedNormalize n => match_ty db goal n.ty []
  | .isLocal ty => match_ty db goal ty []
  | .isUpstream ty => match_ty db goal ty []
  | .isFullyVisible ty => match_ty db goal ty []
  | .downstreamType ty => match_ty db goal ty []
  | .inScope type_kind_id => match_type_kind db type_kind_id []
  | .localImplAllowed trait_ref => db.trait_datum_clauses trait_ref.trait_id
  | .compatible => []

/-- Goal-driven clause collection, from clauses.rs: collect candidates by
goal shape, then extend the output vector with those candidates that could
match the goal. -/
def program_clauses_that_could_match (db : RustIrDatabase) (goal : DomainGoal)
    (vec : List ProgramClause) : List ProgramClause :=
  vec ++ (collect_candidate_clauses db goal).filter (fun clause => could_match clause goal)

/-- Modelled from the spec: the clause visitor (the clause_visitor module
is not part of the source file).  The visitor structurally walks one
clause — its consequence, its conditions, and every type appearing there —
and invokes the type-shape dispatcher on each type or type-kind
encountered, producing the clauses discovered in that clause.  The spec
requires this discovery to be a fixed, deterministic clause collection per
clause, so it is abstracted as a function from a clause to a list of
clauses (whose order is irrelevant: every use deduplicates). -/
abbrev ClauseVisitor := ProgramClause → List ProgramClause

/-- Round zero of the closure engine, from clauses.rs: visit every clause
of the environment and collect everything discovered into one
deduplicated collection (the source inserts into a hash set). -/
def visit_environment (visitor : ClauseVisitor) (env_clauses : List ProgramClause) :
    List ProgramClause :=
  (env_clauses.flatMap visitor).dedup

/-- The breadth-first fixed-point loop of clauses.rs: while the last round
discovered something, visit every clause of the last round, and keep (and
queue for the next round) exactly the discoveries not already in the
closure accumulator.  The source loops until the frontier is empty; the
embedding carries an explicit round budget, and the theorems below show
that any budget of at least one more than the size of the reachable clause
universe reaches the fixed point. -/
def closure_rounds (visitor : ClauseVisitor) :
    Nat → List ProgramClause → List ProgramClause → List ProgramClause
  | 0, closure, _ => closure
  | fuel + 1, closure, last_round =>
    if last_round = [] then closure
    else
      closure_rounds visitor fuel
        (closure ++ ((last_round.flatMap visitor).dedup.filter (fun c => decide (c ∉ closure))))
        ((last_round.flatMap visitor).dedup.filter (fun c => decide (c ∉ closure)))

/-- The closure accumulator computed by the loop of clauses.rs, starting
from the clauses discovered by visiting the environment. -/
def env_closure (visitor : ClauseVisitor) (fuel : Nat)
    (env_clauses : List ProgramClause) : List ProgramClause :=
  closure_rounds visitor fuel (visit_environment visitor env_clauses)
    (visit_environment visitor env_clauses)

/-- Environment-driven clause generation, from clauses.rs: extend the
output vector with the contents of the closure accumulator. -/
def program_clauses_for_env (visitor : ClauseVisitor) (fuel : Nat)
    (environment : Environment) (clauses : List ProgramClause) : List ProgramClause :=
  clauses ++ env_closure visitor fuel environment.clauses

/-- Top-level orchestration, from clauses.rs: collect goal-driven
candidates into an empty vector, extend it with the environment closure,
then retain only clauses that could match the goal. -/
def program_clauses_for_goal (db : RustIrDatabase) (visitor : ClauseVisitor)
    (fuel : Nat) (environment : Environment) (goal : DomainGoal) : List ProgramClause :=
  (program_clauses_for_env visitor fuel environment
      (program_clauses_that_could_match db goal [])).filter
    (fun c => could_match c goal)

/-- A clause is discovered from an environment when the visitor produces
it, in one or more steps, starting from the environment's clauses: either
directly by visiting an environment clause, or by visiting an already
discovered clause. -/
inductive Discovered (visitor : ClauseVisitor) (env_clauses : List ProgramClause) :
    ProgramClause → Prop where
  | base {c d : ProgramClause} : c ∈ env_clauses → d ∈ visitor c →
      Discovered visitor env_clauses d
  | step {c d : ProgramClause} : Discovered visitor env_clauses c → d ∈ visitor c →
      Discovered visitor env_clauses d

/-- Example clause: trait 0 is implemented for a bound variable, with no
conditions.  Used as concrete input for evaluation. -/
def exClauseA : ProgramClause :=
  ProgramClause.implies (ProgramClauseImplication.mk
    (DomainGoal.holds (WhereClause.implemented (TraitRef.mk 0 [Ty.boundVar 0]))) [])

/-- Example clause with an unrelated head, used as an environment
hypothesis in concrete evaluations. -/
def exClauseB : ProgramClause :=
  ProgramClause.implies (ProgramClauseImplication.mk DomainGoal.compatible [])

/-- Example goal matching the head of exClauseA. -/
def exGoalA : DomainGoal :=
  DomainGoal.holds (WhereClause.implemented (TraitRef.mk 0 [Ty.boundVar 0]))

/-- Example visitor that discovers exClauseA in every clause. -/
def exVisitorA : ClauseVisitor := fun _ => [exClauseA]

/-- Example visitor that discovers nothing. -/
def exVisitorNone : ClauseVisitor := fun _ => []

/-- Example finite clause universe for the example visitor. -/
def exUnivA : Finset ProgramClause := {exClauseA}

/-- Example store: trait lookups produce exClauseA, nothing else. -/
def exDbA : RustIrDatabase :=
  RustIrDatabase.mk (fun _ _ => false) (fun _ => [exClauseA]) (fun _ => []) (fun _ => [])

/-- Example store with no explicit impls and no clauses. -/
def exDbNone : RustIrDatabase :=
  RustIrDatabase.mk (fun _ _ => false) (fun _ => []) (fun _ => []) (fun _ => [])

/-- Example store reporting an explicit impl for every pair. -/
def exDbProvided : RustIrDatabase :=
  RustIrDatabase.mk (fun _ _ => true) (fun _ => []) (fun _ => []) (fun _ => [])

/-- Example auto-trait declaration: one binder (Self), auto flag set. -/
def exTraitDatum : TraitDatum :=
  TraitDatum.mk (Binders.mk [ParameterKind.ty]
    (TraitDatumBound.mk (TraitRef.mk 0 [Ty.boundVar 0]) (TraitFlags.mk true)))

/-- Example struct declaration: one generic parameter, two fields. -/
def exStructDatum : StructDatum :=
  StructDatum.mk (Binders.mk [ParameterKind.ty]
    (StructDatumBound.mk
      (ApplicationTy.mk (TyName.typeKindId (TypeKindId.structId 5)) [Ty.boundVar 0])
      [Ty.boundVar 0, Ty.apply (TyName.typeKindId (TypeKindId.structId 7)) [Ty.boundVar 0]]))

/-- Example struct declaration with no fields. -/
def exStructEmpty : StructDatum :=
  StructDatum.mk (Binders.mk []
    (StructDatumBound.mk
      (ApplicationTy.mk (TyName.typeKindId (TypeKindId.structId 6)) []) []))

theorem closure_rounds_nil_last (visitor : ClauseVisitor) (fuel : Nat)
    (closure : List ProgramClause) :
    closure_rounds visitor fuel closure [] = closure := by
  cases fuel <;> simp [closure_rounds]

theorem mem_closure_rounds_of_mem (visitor : ClauseVisitor) :
    ∀ (fuel : Nat) (closure last_round : List ProgramClause) (c : ProgramClause),
      c ∈ closure → c ∈ closure_rounds visitor fuel closure last_round := by
  intro fuel
  induction fuel with
  | zero => intro closure last_round c hc; simpa [closure_rounds] using hc
  | succ fuel ih =>
    intro closure last_round c hc
    by_cases h : last_round = []
    · simpa [closure_rounds, h] using hc
    · simp only [closure_rounds, if_neg h]
      exact ih _ _ _ (List.mem_append_left _ hc)

theorem closure_rounds_sound (visitor : ClauseVisitor) (P : ProgramClause → Prop)
    (hstep : ∀ c d, P c → d ∈ visitor c → P d) :
    ∀ (fuel : Nat) (closure last_round : List ProgramClause),
      (∀ c ∈ closure, P c) → (∀ c ∈ last_round, P c) →
      ∀ c ∈ closure_rounds visitor fuel closure last_round, P c := by
  intro fuel
  induction fuel with
  | zero => intro closure last_round hcl _ c hc; exact hcl c (by simpa [closure_rounds] using hc)
  | succ fuel ih =>
    intro closure last_round hcl hlast c hc
    by_cases h : last_round = []
    · exact hcl c (by simpa [closure_rounds, h] using hc)
    · simp only [closure_rounds, if_neg h] at hc
      have hfresh : ∀ d ∈ ((last_round.flatMap visitor).dedup.filter
          (fun c => decide (c ∉ closure))), P d := by
        intro d hd
        have hd' := List.mem_filter.mp hd
        have := List.mem_dedup.mp hd'.1
        obtain ⟨b, hb, hdb⟩ := List.mem_flatMap.mp this
        exact hstep b d (hlast b hb) hdb
      refine ih _ _ ?_ hfresh c hc
      intro d hd
      rcases List.mem_append.mp hd with hd | hd
      · exact hcl d hd
      · exact hfresh d hd

theorem closure_rounds_nodup (visitor : ClauseVisitor) :
    ∀ (fuel : Nat) (closure last_round : List ProgramClause),
      closure.Nodup → (closure_rounds visitor fuel closure last_round).Nodup := by
  intro fuel
  induction fuel with
  | zero => intro closure last_round hcl; simpa [closure_rounds] using hcl
  | succ fuel ih =>
    intro closure last_round hcl
    by_cases h : last_round = []
    · simpa [closure_rounds, h] using hcl
    · simp only [closure_rounds, if_neg h]
      refine ih _ _ (List.Nodup.append hcl
        (List.Nodup.filter _ (List.nodup_dedup _)) ?_)
      intro a ha hafresh
      have := (List.mem_filter.mp hafresh).2
      simp only [decide_eq_true_eq] at this
      exact this ha

theorem closure_rounds_closed (visitor : ClauseVisitor) (U : Finset ProgramClause)
    (hU : ∀ c, ∀ d ∈ visitor c, d ∈ U) :
    ∀ (fuel : Nat) (closure last_round : List ProgramClause),
      closure.Nodup →
      (∀ c ∈ closure, c ∈ U) →
      (∀ c ∈ last_round, c ∈ closure) →
      (∀ c ∈ closure, c ∉ last_round → ∀ d ∈ visitor c, d ∈ closure) →
      U.card + 1 ≤ fuel + closure.length →
      ∀ c ∈ closure_rounds visitor fuel closure last_round,
        ∀ d ∈ visitor c, d ∈ closure_rounds visitor fuel closure last_round := by
  intro fuel
  induction fuel with
  | zero =>
    intro closure last_round hnd hsub _ _ hfuel
    exfalso
    have h1 : closure.toFinset.card = closure.length := List.toFinset_card_of_nodup hnd
    have h2 : closure.toFinset ⊆ U := by
      intro a ha; exact hsub a (List.mem_toFinset.mp ha)
    have := Finset.card_le_card h2
    omega
  | succ fuel ih =>
    intro closure last_round hnd hsub hlast hexp hfuel
    by_cases h : last_round = []
    · simp only [closure_rounds, if_pos h]
      intro c hc d hd
      exact hexp c hc (by simp [h]) d hd
    · simp only [closure_rounds, if_neg h]
      by_cases hfr : ((last_round.flatMap visitor).dedup.filter
          (fun c => decide (c ∉ closure))) = []
      · have hnext : ∀ d ∈ (last_round.flatMap visitor).dedup, d ∈ closure := by
          intro d hd
          by_contra hdc
          have hmem : d ∈ ((last_round.flatMap visitor).dedup.filter
              (fun c => decide (c ∉ closure))) :=
            List.mem_filter.mpr ⟨hd, by simpa using hdc⟩
          rw [hfr] at hmem
          exact absurd hmem (by simp)
        rw [hfr]
        rw [List.append_nil, closure_rounds_nil_last]
        intro c hc d hd
        by_cases hcl : c ∈ last_round
        · exact hnext d (List.mem_dedup.mpr (List.mem_flatMap.mpr ⟨c, hcl, hd⟩))
        · exact hexp c hc hcl d hd
      · have hfr_sub : ∀ a ∈ ((last_round.flatMap visitor).dedup.filter
            (fun c => decide (c ∉ closure))), a ∈ U := by
          intro a ha
          have := List.mem_dedup.mp (List.mem_filter.mp ha).1
          obtain ⟨b, _, hab⟩ := List.mem_flatMap.mp this
          exact hU b a hab
        have hfr_not : ∀ a ∈ ((last_round.flatMap visitor).dedup.filter
            (fun c => decide (c ∉ closure))), a ∉ closure := by
          intro a ha
          have := (List.mem_filter.mp ha).2
          simpa using this
        refine ih _ _ ?_ ?_ ?_ ?_ ?_
        · refine List.Nodup.append hnd (List.Nodup.filter _ (List.nodup_dedup _)) ?_
          intro a ha hafresh
          exact hfr_not a hafresh ha
        · intro c hc
          rcases List.mem_append.mp hc with hc | hc
          · exact hsub c hc
          · exact hfr_sub c hc
        · intro c hc
          exact List.mem_append_right _ hc
        · intro c hc hcfr d hd
          rcases List.mem_append.mp hc with hc | hc
          · by_cases hcl : c ∈ last_round
            · have hdn : d ∈ (last_round.flatMap visitor).dedup :=
                List.mem_dedup.mpr (List.mem_flatMap.mpr ⟨c, hcl, hd⟩)
              by_cases hdc : d ∈ closure
              · exact List.mem_append_left _ hdc
              · refine List.mem_append_right _ ?_
                exact List.mem_filter.mpr ⟨hdn, by simpa using hdc⟩
            · exact List.mem_append_left _ (hexp c hc hcl d hd)
          · exact absurd hc hcfr
        · have hlen : 0 < ((last_round.flatMap visitor).dedup.filter
              (fun c => decide (c ∉ closure))).length := List.length_pos.mpr hfr
          simp only [List.length_append]
          omega

theorem env_closure_mem_iff (visitor : ClauseVisitor) (U : Finset ProgramClause)
    (hU : ∀ c, ∀ d ∈ visitor c, d ∈ U) (fuel : Nat) (env_clauses : List ProgramClause)
    (hfuel : U.card + 1 ≤ fuel) (d : ProgramClause) :
    d ∈ env_closure visitor fuel env_clauses ↔ Discovered visitor env_clauses d := by
  have hseed : ∀ c ∈ visit_environment visitor env_clauses,
      Discovered visitor env_clauses c := by
    intro c hc
    have := List.mem_dedup.mp hc
    obtain ⟨b, hb, hcb⟩ := List.mem_flatMap.mp this
    exact Discovered.base hb hcb
  constructor
  · intro hd
    exact closure_rounds_sound visitor (Discovered visitor env_clauses)
      (fun c d hc hd => Discovered.step hc hd) fuel _ _ hseed hseed d hd
  · intro hd
    induction hd with
    | base hc hdc =>
      refine mem_closure_rounds_of_mem visitor fuel _ _ _ ?_
      exact List.mem_dedup.mpr (List.mem_flatMap.mpr ⟨_, hc, hdc⟩)
    | step _ hdc ih =>
      refine closure_rounds_closed visitor U hU fuel _ _
        (List.nodup_dedup _) ?_ (fun c hc => hc) (fun c hc hc' => absurd hc hc') ?_ _ ih _ hdc
      · intro c hc
        have := List.mem_dedup.mp hc
        obtain ⟨b, _, hcb⟩ := List.mem_flatMap.mp this
        exact hU b c hcb
      · omega

theorem discovered_env_mono (visitor : ClauseVisitor)
    {env env' : List ProgramClause}
    (hsub : ∀ c, c ∈ env → c ∈ env') {d : ProgramClause}
    (h : Discovered visitor env d) : Discovered visitor env' d := by
  induction h with
  | base hc hd => exact Discovered.base (hsub _ hc) hd
  | step _ hd ih => exact Discovered.step ih hd

theorem discovered_trans (visitor : ClauseVisitor)
    {env env2 : List ProgramClause}
    (h2 : ∀ c ∈ env2, Discovered visitor env c) {d : ProgramClause}
    (h : Discovered visitor env2 d) : Discovered visitor env d := by
  induction h with
  | base hc hd => exact Discovered.step (h2 _ hc) hd
  | step _ hd ih => exact Discovered.step ih hd

/-- C1: for a struct with N declared fields and an auto trait (auto flag
set, exactly one binder) with no explicit impl provided for the pair,
push_auto_trait_impls pushes exactly one clause, quantified over the
struct's own generic parameters, whose consequence is the struct's self
type (the struct applied to its own declared generic parameters)
implementing the trait and whose conditions are exactly the N per-field
sub-goals, in declared field order; with zero fields the condition list is
empty. -/
theorem push_auto_trait_impls_field_law
    (auto_trait_id : TraitId) (auto_trait : TraitDatum) (struct_id : StructId)
    (struct_datum : StructDatum) (program : RustIrDatabase) (vec : List ProgramClause)
    (_hauto : auto_trait.binders.value.flags.auto = true)
    (_hone : auto_trait.binders.binders.length = 1)
    (hno : program.impl_provided_for auto_trait_id struct_id = false) :
    push_auto_trait_impls auto_trait_id auto_trait struct_id struct_datum program vec =
      vec ++ [ProgramClause.forAllClause (Binders.mk struct_datum.binders.binders
        (ProgramClauseImplication.mk
          (DomainGoal.holds (WhereClause.implemented
            (TraitRef.mk auto_trait.binders.value.trait_ref.trait_id
              [Ty.ofApplication struct_datum.binders.value.self_ty])))
          (struct_datum.binders.value.fields.map (fun field_ty =>
            DomainGoal.holds (WhereClause.implemented
              (TraitRef.mk auto_trait_id [field_ty]))))))] ∧
    (struct_datum.binders.value.fields.map (fun field_ty =>
        DomainGoal.holds (WhereClause.implemented
          (TraitRef.mk auto_trait_id [field_ty])))).length =
      struct_datum.binders.value.fields.length := by
  constructor
  · simp [push_auto_trait_impls, hno, Binders.castToProgramClause, Binders.map_ref]
  · simp

theorem push_auto_trait_impls_field_law_witness :
    (exTraitDatum.binders.value.flags.auto = true ∧
      exTraitDatum.binders.binders.length = 1 ∧
      exDbNone.impl_provided_for 0 5 = false) ∧
    (push_auto_trait_impls 0 exTraitDatum 5 exStructDatum exDbNone [] =
      [] ++ [ProgramClause.forAllClause (Binders.mk exStructDatum.binders.binders
        (ProgramClauseImplication.mk
          (DomainGoal.holds (WhereClause.implemented
            (TraitRef.mk exTraitDatum.binders.value.trait_ref.trait_id
              [Ty.ofApplication exStructDatum.binders.value.self_ty])))
          (exStructDatum.binders.value.fields.map (fun field_ty =>
            DomainGoal.holds (WhereClause.implemented
              (TraitRef.mk 0 [field_ty]))))))] ∧
      (exStructDatum.binders.value.fields.map (fun field_ty =>
          DomainGoal.holds (WhereClause.implemented
            (TraitRef.mk 0 [field_ty])))).length =
        exStructDatum.binders.value.fields.length) :=
  ⟨⟨rfl, rfl, rfl⟩,
    push_auto_trait_impls_field_law 0 exTraitDatum 5 exStructDatum exDbNone [] rfl rfl rfl⟩

/-- C2: when an explicit (positive or negative) impl is provided for the
(auto trait, struct) pair, push_auto_trait_impls synthesizes nothing: the
output vector is returned exactly as it was, regardless of the struct's
fields. -/
theorem push_auto_trait_impls_suppressed
    (auto_trait_id : TraitId) (auto_trait : TraitDatum) (struct_id : StructId)
    (struct_datum : StructDatum) (program : RustIrDatabase) (vec : List ProgramClause)
    (_hauto : auto_trait.binders.value.flags.auto = true)
    (_hone : auto_trait.binders.binders.length = 1)
    (hyes : program.impl_provided_for auto_trait_id struct_id = true) :
    push_auto_trait_impls auto_trait_id auto_trait struct_id struct_datum program vec = vec := by
  simp [push_auto_trait_impls, hyes]

theorem push_auto_trait_impls_suppressed_witness :
    (exTraitDatum.binders.value.flags.auto = true ∧
      exTraitDatum.binders.binders.length = 1 ∧
      exDbProvided.impl_provided_for 0 5 = true) ∧
    push_auto_trait_impls 0 exTraitDatum 5 exStructDatum exDbProvided [exClauseB] =
      [exClauseB] :=
  ⟨⟨rfl, rfl, rfl⟩,
    push_auto_trait_impls_suppressed 0 exTraitDatum 5 exStructDatum exDbProvided
      [exClauseB] rfl rfl rfl⟩

/-- C3: every clause in the output of program_clauses_that_could_match,
and every clause in the final output of program_clauses_for_goal, has a
consequence whose head identity and arity match the goal's head identity
and arity; a clause whose head identity or arity differs from the goal's
is absent from both outputs. -/
theorem program_clauses_could_match_filter (db : RustIrDatabase) (visitor : ClauseVisitor)
    (fuel : Nat) (environment : Environment) (goal : DomainGoal) (c : ProgramClause) :
    (c ∈ program_clauses_that_could_match db goal [] →
      c.consequence.head_id = goal.head_id ∧ c.consequence.head_arity = goal.head_arity) ∧
    (c ∈ program_clauses_for_goal db visitor fuel environment goal →
      c.consequence.head_id = goal.head_id ∧ c.consequence.head_arity = goal.head_arity) ∧
    (¬(c.consequence.head_id = goal.head_id ∧ c.consequence.head_arity = goal.head_arity) →
      c ∉ program_clauses_that_could_match db goal [] ∧
      c ∉ program_clauses_for_goal db visitor fuel environment goal) := by
  have key : ∀ (l : List ProgramClause), c ∈ l.filter (fun x => could_match x goal) →
      c.consequence.head_id = goal.head_id ∧ c.consequence.head_arity = goal.head_arity := by
    intro l hl
    have := (List.mem_filter.mp hl).2
    simpa [could_match] using this
  have h1 : c ∈ program_clauses_that_could_match db goal [] →
      c.consequence.head_id = goal.head_id ∧ c.consequence.head_arity = goal.head_arity := by
    intro h
    exact key _ (by simpa [program_clauses_that_could_match] using h)
  have h2 : c ∈ program_clauses_for_goal db visitor fuel environment goal →
      c.consequence.head_id = goal.head_id ∧ c.consequence.head_arity = goal.head_arity := by
    intro h
    exact key _ (by simpa [program_clauses_for_goal] using h)
  exact ⟨h1, h2, fun hne => ⟨fun h => hne (h1 h), fun h => hne (h2 h)⟩⟩

theorem program_clauses_could_match_filter_witness :
    (exClauseA ∈ program_clauses_that_could_match exDbA exGoalA [] →
      exClauseA.consequence.head_id = exGoalA.head_id ∧
        exClauseA.consequence.head_arity = exGoalA.head_arity) ∧
    (exClauseA ∈ program_clauses_for_goal exDbA exVisitorNone 1 (Environment.mk []) exGoalA →
      exClauseA.consequence.head_id = exGoalA.head_id ∧
        exClauseA.consequence.head_arity = exGoalA.head_arity) ∧
    (¬(exClauseA.consequence.head_id = exGoalA.head_id ∧
        exClauseA.consequence.head_arity = exGoalA.head_arity) →
      exClauseA ∉ program_clauses_that_could_match exDbA exGoalA [] ∧
      exClauseA ∉ program_clauses_for_goal exDbA exVisitorNone 1 (Environment.mk []) exGoalA) :=
  program_clauses_could_match_filter exDbA exVisitorNone 1 (Environment.mk []) exGoalA exClauseA

/-- C4: with a finite clause universe bounding the visitor (the spec's
finite Declaration Store and finite environment), the breadth-first loop
of program_clauses_for_env reaches its fixed point within card(U) + 1
rounds — any two round budgets at least that bound, applied to
environments holding the same clauses in any order, produce set-equal
outputs. -/
theorem program_clauses_for_env_fixed_point (visitor : ClauseVisitor)
    (U : Finset ProgramClause) (hU : ∀ c, ∀ d ∈ visitor c, d ∈ U)
    (env env' : List ProgramClause) (fuel fuel' : Nat)
    (hperm : env.Perm env')
    (hfuel : U.card + 1 ≤ fuel) (hfuel' : U.card + 1 ≤ fuel')
    (c : ProgramClause) :
    c ∈ program_clauses_for_env visitor fuel (Environment.mk env) [] ↔
      c ∈ program_clauses_for_env visitor fuel' (Environment.mk env') [] := by
  simp only [program_clauses_for_env, List.nil_append]
  rw [env_closure_mem_iff visitor U hU fuel env hfuel c,
    env_closure_mem_iff visitor U hU fuel' env' hfuel' c]
  constructor
  · exact discovered_env_mono visitor (fun a ha => hperm.subset ha)
  · exact discovered_env_mono visitor (fun a ha => hperm.symm.subset ha)

theorem program_clauses_for_env_fixed_point_witness :
    ((∀ c, ∀ d ∈ exVisitorA c, d ∈ exUnivA) ∧
      List.Perm [exClauseA, exClauseB] [exClauseB, exClauseA] ∧
      exUnivA.card + 1 ≤ 2 ∧ exUnivA.card + 1 ≤ 3) ∧
    (exClauseA ∈ program_clauses_for_env exVisitorA 2 (Environment.mk [exClauseA, exClauseB]) [] ↔
      exClauseA ∈ program_clauses_for_env exVisitorA 3 (Environment.mk [exClauseB, exClauseA]) []) :=
  ⟨⟨fun c d hd => by simpa [exVisitorA, exUnivA] using hd, by decide, by decide, by decide⟩,
    program_clauses_for_env_fixed_point exVisitorA exUnivA
      (fun c d hd => by simpa [exVisitorA, exUnivA] using hd)
      [exClauseA, exClauseB] [exClauseB, exClauseA] 2 3 (by decide) (by decide) (by decide)
      exClauseA⟩

/-- C5: environment closure is idempotent — running program_clauses_for_env
on an environment consisting exactly of the clauses it produced yields no
clause beyond those clauses. -/
theorem program_clauses_for_env_idempotent (visitor : ClauseVisitor)
    (U : Finset ProgramClause) (hU : ∀ c, ∀ d ∈ visitor c, d ∈ U)
    (env : List ProgramClause) (fuel : Nat) (hfuel : U.card + 1 ≤ fuel)
    (d : ProgramClause)
    (hd : d ∈ program_clauses_for_env visitor fuel
      (Environment.mk (program_clauses_for_env visitor fuel (Environment.mk env) [])) []) :
    d ∈ program_clauses_for_env visitor fuel (Environment.mk env) [] := by
  simp only [program_clauses_for_env, List.nil_append] at hd ⊢
  have h1 : Discovered visitor (env_closure visitor fuel env) d :=
    (env_closure_mem_iff visitor U hU fuel _ hfuel d).mp hd
  have h2 : Discovered visitor env d :=
    discovered_trans visitor
      (fun c hc => (env_closure_mem_iff visitor U hU fuel env hfuel c).mp hc) h1
  exact (env_closure_mem_iff visitor U hU fuel env hfuel d).mpr h2

theorem program_clauses_for_env_idempotent_witness :
    ((∀ c, ∀ d ∈ exVisitorA c, d ∈ exUnivA) ∧ exUnivA.card + 1 ≤ 2 ∧
      exClauseA ∈ program_clauses_for_env exVisitorA 2
        (Environment.mk (program_clauses_for_env exVisitorA 2
          (Environment.mk [exClauseB]) [])) []) ∧
    exClauseA ∈ program_clauses_for_env exVisitorA 2 (Environment.mk [exClauseB]) [] :=
  ⟨⟨fun c d hd => by simpa [exVisitorA, exUnivA] using hd, by decide, by decide⟩,
    program_clauses_for_env_idempotent exVisitorA exUnivA
      (fun c d hd => by simpa [exVisitorA, exUnivA] using hd)
      [exClauseB] 2 (by decide) exClauseA (by decide)⟩

/-- C6: for an applied type naming a placeholder, match_ty emits exactly
one clause, whose consequence is the goal itself and whose conditions are
empty. -/
theorem match_ty_placeholder (db : RustIrDatabase) (goal : DomainGoal) (idx : Nat)
    (parameters : List Ty) (clauses : List ProgramClause) :
    match_ty db goal (Ty.apply (TyName.placeholder idx) parameters) clauses =
      clauses ++ [ProgramClause.implies (ProgramClauseImplication.mk goal [])] := rfl

/-- C7: FromEnv and Compatible goals contribute no clauses from the
goal-dispatch path of program_clauses_that_could_match, and unselected
projections, bound variables and inference variables contribute no clauses
from match_ty; each is an empty contribution rather than a failure. -/
theorem under_approximation_gaps (db : RustIrDatabase) (fe : FromEnv) (goal : DomainGoal)
    (vec clauses : List ProgramClause) (type_name : Identifier) (parameters : List Ty)
    (depth index : Nat) :
    program_clauses_that_could_match db (DomainGoal.fromEnv fe) vec = vec ∧
    program_clauses_that_could_match db DomainGoal.compatible vec = vec ∧
    match_ty db goal (Ty.unselectedProjection type_name parameters) clauses = clauses ∧
    match_ty db goal (Ty.boundVar depth) clauses = clauses ∧
    match_ty db goal (Ty.inferenceVar index) clauses = clauses := by
  refine ⟨?_, ?_, rfl, rfl, rfl⟩ <;>
    simp [program_clauses_that_could_match, collect_candidate_clauses]

/-- C8: program_clauses_for_env applied to an environment with no clauses
contributes nothing: the output vector is exactly the input vector. -/
theorem program_clauses_for_env_empty_environment (visitor : ClauseVisitor) (fuel : Nat)
    (clauses : List ProgramClause) :
    program_clauses_for_env visitor fuel (Environment.mk []) clauses = clauses := by
  simp [program_clauses_for_env, env_closure, visit_environment, closure_rounds_nil_last]

/-- C9 counterexample: the vector returned by program_clauses_for_goal can
contain two structurally equal clauses.  With a store whose trait lookup
yields exClauseA, a goal matching exClauseA's head, and an environment
whose closure also discovers exClauseA, the goal-driven collector and the
environment closure each contribute exClauseA and the final vector keeps
both copies — it is not deduplicated by structural equality. -/
theorem program_clauses_for_goal_duplicates :
    ¬ (program_clauses_for_goal exDbA exVisitorA 2
        (Environment.mk [exClauseB]) exGoalA).Nodup := by decide

/-- C9 amended: the clause set produced by the environment-closure engine
is deduplicated by structural equality (no two structurally equal clauses,
emission order carrying no meaning); the vector returned by
program_clauses_for_goal, however, may repeat a clause contributed by both
the goal-driven collector and the environment closure. -/
theorem env_closure_nodup (visitor : ClauseVisitor) (fuel : Nat)
    (env_clauses : List ProgramClause) :
    (env_closure visitor fuel env_clauses).Nodup :=
  closure_rounds_nodup visitor fuel _ _ (List.nodup_dedup _)

/-- C10: the output of program_clauses_for_env contains exactly the
clauses discovered by structurally walking clauses, starting from the
environment's clauses and iterating; an environment hypothesis itself
appears in the output only when the walk independently rediscovers it. -/
theorem program_clauses_for_env_only_discovered (visitor : ClauseVisitor)
    (U : Finset ProgramClause) (hU : ∀ c, ∀ d ∈ visitor c, d ∈ U)
    (fuel : Nat) (environment : Environment) (hfuel : U.card + 1 ≤ fuel)
    (c : ProgramClause) :
    c ∈ program_clauses_for_env visitor fuel environment [] ↔
      Discovered visitor environment.clauses c := by
  simp only [program_clauses_for_env, List.nil_append]
  exact env_closure_mem_iff visitor U hU fuel environment.clauses hfuel c

theorem program_clauses_for_env_only_discovered_witness :
    ((∀ c, ∀ d ∈ exVisitorA c, d ∈ exUnivA) ∧ exUnivA.card + 1 ≤ 2) ∧
    (exClauseB ∈ program_clauses_for_env exVisitorA 2 (Environment.mk [exClauseB]) [] ↔
      Discovered exVisitorA [exClauseB] exClauseB) :=
  ⟨⟨fun c d hd => by simpa [exVisitorA, exUnivA] using hd, by decide⟩,
    program_clauses_for_env_only_discovered exVisitorA exUnivA
      (fun c d hd => by simpa [exVisitorA, exUnivA] using hd) 2
      (Environment.mk [exClauseB]) (by decide) exClauseB⟩
